import Mathlib

/-!
Shallow embedding of the symbol-interning front end of `solar`
(`src/crates/interface/src/symbol.rs`).

The interner (`Interner`) keeps an insertion-ordered deduplicated set of
strings (the Rust `FxIndexSet<&str>`); a `Symbol` is the index of a string in
that set.  The `symbols!` macro prefills the session interner with the keyword
strings listed in `symbol.rs`, assigning handles in declaration order, and the
keyword classification predicates are integer range tests against named
handles from that list.
-/

set_option maxHeartbeats 1000000
set_option maxRecDepth 10000

namespace Solar

/-- An interned string handle: `pub struct Symbol(BaseIndex32)`.  The
`BaseIndex32` payload is modelled as the raw index it wraps
(`Symbol::as_u32`). -/
structure Symbol where
  idx : Nat
deriving DecidableEq, Repr

/-- The interner state: the insertion-ordered set `strings: FxIndexSet<&str>`
of `InternerInner`, modelled as the list of its elements in insertion order
(an `FxIndexSet` never holds duplicates).  The arena only owns the string
bytes and has no observable state of its own. -/
structure Interner where
  strings : List String
deriving DecidableEq, Repr

/-- `FxIndexSet::get_index_of`: the index of the (unique) occurrence of `s`,
or `none` when absent.  On a duplicate-free list this is the index of the
first occurrence. -/
def firstIdx : List String → String → Option Nat
  | [], _ => none
  | a :: tl, s => if a = s then some 0 else (firstIdx tl s).map (· + 1)

/-- `Interner::intern`: return the existing index when the string is present,
otherwise insert it at the end (`FxIndexSet::insert_full`) and return the new
index. -/
def Interner.intern (i : Interner) (s : String) : Symbol × Interner :=
  match firstIdx i.strings s with
  | some idx => (⟨idx⟩, i)
  | none => (⟨i.strings.length⟩, ⟨i.strings ++ [s]⟩)

/-- Interning a whole list of strings in order, discarding the handles;
models an arbitrary sequence of later `intern` calls on the same table. -/
def Interner.internAll (i : Interner) (ss : List String) : Interner :=
  ss.foldl (fun j t => (j.intern t).2) i

/-- One step of `FxIndexSet`'s `collect`: inserting into an insertion-ordered
set keeps the first occurrence's position and drops later duplicates. -/
def insertDedup (l : List String) (s : String) : List String :=
  if s ∈ l then l else l ++ [s]

/-- `Interner::prefill`: `init.iter().copied().collect()` into an
`FxIndexSet`, i.e. insert the strings in order, deduplicating. -/
def Interner.prefill (init : List String) : Interner :=
  ⟨init.foldl insertDedup []⟩

/-- `Interner::get` / `Symbol::as_str`: look the handle's string up by index.
The Rust code `unwrap`s; the out-of-range abort is modelled as `none`. -/
def Interner.get (i : Interner) (s : Symbol) : Option String :=
  i.strings.get? s.idx

/-- The `Keywords { ... }` block of the `symbols!` invocation in `symbol.rs`,
as the list of keyword strings in declaration order. -/
def keywords : List String :=
  ["abstract", "anonymous", "as", "assembly", "break", "calldata", "catch", "constant",
   "constructor", "continue", "contract", "delete", "do", "else", "emit", "enum", "event",
   "external", "fallback", "for", "function", "hex", "if", "immutable", "import", "indexed",
   "interface", "internal", "is", "library", "mapping", "memory", "modifier", "new", "override",
   "payable", "pragma", "private", "public", "pure", "receive", "return", "returns", "storage",
   "struct", "throw", "try", "type", "unchecked", "unicode", "using", "view", "virtual", "while",
   "int", "int8", "int16", "int24", "int32", "int40", "int48", "int56", "int64", "int72",
   "int80", "int88", "int96", "int104", "int112", "int120", "int128", "int136", "int144",
   "int152", "int160", "int168", "int176", "int184", "int192", "int200", "int208", "int216",
   "int224", "int232", "int240", "int248", "int256",
   "uint", "uint8", "uint16", "uint24", "uint32", "uint40", "uint48", "uint56", "uint64",
   "uint72", "uint80", "uint88", "uint96", "uint104", "uint112", "uint120", "uint128",
   "uint136", "uint144", "uint152", "uint160", "uint168", "uint176", "uint184", "uint192",
   "uint200", "uint208", "uint216", "uint224", "uint232", "uint240", "uint248", "uint256",
   "bytes", "bytes1", "bytes2", "bytes3", "bytes4", "bytes5", "bytes6", "bytes7", "bytes8",
   "bytes9", "bytes10", "bytes11", "bytes12", "bytes13", "bytes14", "bytes15", "bytes16",
   "bytes17", "bytes18", "bytes19", "bytes20", "bytes21", "bytes22", "bytes23", "bytes24",
   "bytes25", "bytes26", "bytes27", "bytes28", "bytes29", "bytes30", "bytes31", "bytes32",
   "string", "address", "bool", "fixed", "ufixed",
   "wei", "gwei", "ether", "seconds", "minutes", "hours", "days", "weeks", "years",
   "false", "true",
   "after", "alias", "apply", "auto", "byte", "case", "copyof", "default", "define", "final",
   "implements", "in", "inline", "let", "macro", "match", "mutable", "null", "of", "partial",
   "promise", "reference", "relocatable", "sealed", "sizeof", "static", "supports", "switch",
   "typedef", "typeof", "var",
   "leave", "revert",
   "add", "addmod", "and", "balance", "basefee", "blockhash", "call", "callcode",
   "calldatacopy", "calldataload", "calldatasize", "caller", "callvalue", "chainid",
   "coinbase", "create", "create2", "delegatecall", "difficulty", "div", "eq", "exp",
   "extcodecopy", "extcodehash", "extcodesize", "gas", "gaslimit", "gasprice", "gt",
   "invalid", "iszero", "keccak256", "log0", "log1", "log2", "log3", "log4", "lt", "mload",
   "mod", "msize", "mstore", "mstore8", "mul", "mulmod", "not", "number", "or", "origin",
   "pop", "prevrandao", "returndatacopy", "returndatasize", "sar", "sdiv", "selfbalance",
   "selfdestruct", "sgt", "shl", "shr", "signextend", "sload", "slt", "smod", "sstore",
   "staticcall", "stop", "sub", "timestamp", "xor",
   "class", "instantiation", "Integer", "itself", "static_assert", "__builtin"]

/-- Modelled from the spec: the `symbols!` proc macro (in `crates/macros`, not
under `src/`) also pre-interns the decimal digit strings "0".."9"
(`SYMBOL_DIGITS_BASE`), per the comment in `symbol.rs` and spec invariant 5. -/
def digits : List String :=
  ["0", "1", "2", "3", "4", "5", "6", "7", "8", "9"]

/-- The `Symbols { ... }` block of the `symbols!` invocation: the non-keyword
pre-interned strings, in declaration order. -/
def extraSymbols : List String :=
  ["X", "abicoder", "error", "experimental", "from", "global", "solidity", "_", "x"]

/-- Modelled from the spec: the full prefill list the `symbols!` macro
(in `crates/macros`, not under `src/`) passes to `Interner::prefill`, with
handles `0..K` assigned in exactly the written order (spec invariant 2):
keywords first, then the digit symbols, then the remaining symbols. -/
def staticSymbols : List String :=
  keywords ++ digits ++ extraSymbols

/-- The session interner as initialized by `SessionGlobals`: the prefilled
symbol table against which `Symbol::as_str` resolves. -/
def globalInterner : Interner :=
  Interner.prefill staticSymbols

namespace kw

/-- Modelled from the spec: handle values are the positions in the prefill
list (`keywords` indices, checked against `staticSymbols` below).
`kw::Return`, handle of "return". -/
def Return : Symbol := ⟨41⟩

/-- `kw::Int`, handle of "int". -/
def Int : Symbol := ⟨54⟩

/-- `kw::UInt`, handle of "uint". -/
def UInt : Symbol := ⟨87⟩

/-- `kw::Bytes`, handle of "bytes". -/
def Bytes : Symbol := ⟨120⟩

/-- `kw::Address`, handle of "address". -/
def Address : Symbol := ⟨154⟩

/-- `kw::UFixed`, handle of "ufixed". -/
def UFixed : Symbol := ⟨157⟩

/-- `kw::False`, handle of "false". -/
def False : Symbol := ⟨167⟩

/-- `kw::True`, handle of "true". -/
def True : Symbol := ⟨168⟩

/-- `kw::After`, handle of "after". -/
def After : Symbol := ⟨169⟩

/-- `kw::Byte`, handle of "byte". -/
def Byte : Symbol := ⟨173⟩

/-- `kw::Revert`, handle of "revert". -/
def Revert : Symbol := ⟨201⟩

/-- `kw::Add`, handle of "add". -/
def Add : Symbol := ⟨202⟩

/-- `kw::Xor`, handle of "xor". -/
def Xor : Symbol := ⟨271⟩

/-- `kw::boolean`: the boolean keyword for the given value. -/
def boolean (b : Bool) : Symbol :=
  if b then kw.True else kw.False

/-- `kw::int`: the `int` keyword for the given byte (not bit) size.
`assert!(n <= 32)` then `Symbol::new(Int.as_u32() + n)`; the panic on
`n > 32` is modelled as `none`. -/
def int (n : Nat) : Option Symbol :=
  if n ≤ 32 then some ⟨kw.Int.idx + n⟩ else none

/-- `kw::uint`: the `uint` keyword for the given byte (not bit) size.
`assert!(n <= 32)` then `Symbol::new(UInt.as_u32() + n)`. -/
def uint (n : Nat) : Option Symbol :=
  if n ≤ 32 then some ⟨kw.UInt.idx + n⟩ else none

/-- `kw::fixed_bytes`: the `bytes` keyword for the given byte size.
`assert!(n > 0 && n <= 32)` then `Symbol::new(Bytes.as_u32() + n)`. -/
def fixed_bytes (n : Nat) : Option Symbol :=
  if 0 < n ∧ n ≤ 32 then some ⟨kw.Bytes.idx + n⟩ else none

end kw

/-- `Symbol::is_used_keyword`: `self < kw::After` (symbols compare by
index). -/
def Symbol.is_used_keyword (s : Symbol) : Bool :=
  s.idx < kw.After.idx

/-- `Symbol::is_elementary_type`: `self >= kw::Int && self <= kw::UFixed`. -/
def Symbol.is_elementary_type (s : Symbol) : Bool :=
  kw.Int.idx ≤ s.idx && s.idx ≤ kw.UFixed.idx

/-- `Symbol::is_yul_builtin`:
`(self >= kw::Add && self <= kw::Xor) | matches!(self, kw::Address | kw::Byte | kw::Return | kw::Revert)`. -/
def Symbol.is_yul_builtin (s : Symbol) : Bool :=
  (kw.Add.idx ≤ s.idx && s.idx ≤ kw.Xor.idx)
    || (s = kw.Address || s = kw.Byte || s = kw.Return || s = kw.Revert)

/-- `Symbol::is_bool_lit`: `self == kw::False || self == kw::True`. -/
def Symbol.is_bool_lit (s : Symbol) : Bool :=
  s = kw.False || s = kw.True

/-- A source span; `Ident` identity never inspects it, so only its
byte-offset payload is modelled. -/
structure Span where
  lo : Nat
  hi : Nat
deriving DecidableEq, Repr

/-- `pub struct Ident { pub name: Symbol, pub span: Span }`. -/
structure Ident where
  name : Symbol
  span : Span

/-- `impl PartialEq for Ident`: `self.name == rhs.name`. -/
def Ident.beq (a b : Ident) : Bool :=
  a.name = b.name

/-- `impl Ord for Ident`: `self.name.cmp(&rhs.name)` (symbols compare by
index). -/
def Ident.cmp (a b : Ident) : Ordering :=
  compare a.name.idx b.name.idx

/-- `impl Hash for Ident`: `self.name.hash(state)` — the data fed to the
hasher is exactly the symbol's index. -/
def Ident.hashInput (a : Ident) : Nat :=
  a.name.idx

/-- Auxiliary injective numeric key for strings (base-1114112 encoding of the
character list, with a leading 1); only used to decide duplicate-freeness of
the prefill list cheaply. -/
def strKey (s : String) : Nat :=
  s.data.foldl (fun h c => h * 1114112 + c.toNat) 1

theorem firstIdx_eq_none {l : List String} {s : String} :
    firstIdx l s = none ↔ s ∉ l := by
  induction l with
  | nil => simp [firstIdx]
  | cons a tl ih =>
    by_cases h : a = s
    · subst h; simp [firstIdx]
    · simp only [firstIdx, if_neg h, Option.map_eq_none', List.mem_cons, not_or, ih]
      exact ⟨fun h2 => ⟨fun hc => h hc.symm, h2⟩, fun h2 => h2.2⟩

theorem firstIdx_some {l : List String} {s : String} {k : Nat}
    (h : firstIdx l s = some k) : l.get? k = some s := by
  induction l generalizing k with
  | nil => simp [firstIdx] at h
  | cons a tl ih =>
    by_cases ha : a = s
    · simp [firstIdx, ha] at h
      subst h; simp [ha]
    · simp [firstIdx, ha, Option.map_eq_some'] at h
      obtain ⟨j, hj, rfl⟩ := h
      simpa using ih hj

theorem firstIdx_append_self {l : List String} {s : String} (h : s ∉ l) :
    firstIdx (l ++ [s]) s = some l.length := by
  induction l with
  | nil => simp [firstIdx]
  | cons a tl ih =>
    simp only [List.mem_cons, not_or] at h
    have ha : a ≠ s := fun hc => h.1 hc.symm
    simp [firstIdx, ha, ih h.2]

theorem firstIdx_nodup {l : List String} (hl : l.Nodup) (k : Nat) (hk : k < l.length) :
    firstIdx l (l.get ⟨k, hk⟩) = some k := by
  induction l generalizing k with
  | nil => simp at hk
  | cons a tl ih =>
    cases k with
    | zero => simp [firstIdx]
    | succ j =>
      have hj : j < tl.length := by simpa using hk
      have hnd := List.nodup_cons.mp hl
      have ha : ¬ a = tl.get ⟨j, hj⟩ := fun hc => hnd.1 (hc ▸ List.get_mem tl j hj)
      have hstep : (a :: tl).get ⟨j + 1, hk⟩ = tl.get ⟨j, hj⟩ := rfl
      rw [hstep]
      simp only [firstIdx]
      rw [if_neg ha, ih hnd.2 j hj]
      rfl

theorem intern_strings (i : Interner) (s : String) :
    ((i.intern s).2).strings = i.strings ∨ ((i.intern s).2).strings = i.strings ++ [s] := by
  unfold Interner.intern
  cases h : firstIdx i.strings s <;> simp

theorem internAll_strings (i : Interner) (ss : List String) :
    ∃ t, (i.internAll ss).strings = i.strings ++ t := by
  induction ss generalizing i with
  | nil => exact ⟨[], by simp [Interner.internAll]⟩
  | cons a tl ih =>
    obtain ⟨t, ht⟩ := ih (i.intern a).2
    rcases intern_strings i a with h | h
    · exact ⟨t, by simpa [Interner.internAll, h] using ht⟩
    · refine ⟨a :: t, ?_⟩
      simp only [Interner.internAll, List.foldl_cons] at ht ⊢
      rw [ht, h, List.append_assoc]
      rfl

theorem intern_get (i : Interner) (s : String) :
    ((i.intern s).2).get (i.intern s).1 = some s := by
  unfold Interner.intern Interner.get
  cases h : firstIdx i.strings s with
  | some k => simpa using firstIdx_some h
  | none => simp

theorem intern_handle_lt (i : Interner) (s : String) :
    ((i.intern s).1).idx < ((i.intern s).2).strings.length := by
  have h := intern_get i s
  unfold Interner.get at h
  exact List.get?_eq_some.mp h |>.1

theorem get_mono {i j : Interner} {s : Symbol} {x : String}
    (hext : ∃ t, j.strings = i.strings ++ t) (h : i.get s = some x) :
    j.get s = some x := by
  obtain ⟨t, ht⟩ := hext
  unfold Interner.get at h ⊢
  have hlt : s.idx < i.strings.length := (List.get?_eq_some.mp h).1
  rw [ht, List.get?_append hlt]
  exact h

theorem intern_again (i : Interner) (s : String) :
    ((i.intern s).2).intern s = ((i.intern s).1, (i.intern s).2) := by
  unfold Interner.intern
  cases h : firstIdx i.strings s with
  | some k => simp [h]
  | none =>
    have hmem : s ∉ i.strings := firstIdx_eq_none.mp h
    simp [h, firstIdx_append_self hmem]

theorem intern_ext (i : Interner) (s : String) :
    ∃ t, ((i.intern s).2).strings = i.strings ++ t := by
  rcases intern_strings i s with h | h
  · exact ⟨[], by simp [h]⟩
  · exact ⟨[s], h⟩

theorem intern_distinct (i : Interner) (ss : List String) (s1 s2 : String)
    (hne : s1 ≠ s2) :
    ((((i.intern s1).2).internAll ss).intern s2).1 ≠ (i.intern s1).1 := by
  have h1 : (i.intern s1).2.get (i.intern s1).1 = some s1 := intern_get i s1
  have h1j : (((i.intern s1).2).internAll ss).get (i.intern s1).1 = some s1 :=
    get_mono (internAll_strings _ ss) h1
  have h2 := intern_get (((i.intern s1).2).internAll ss) s2
  have h1j2 := get_mono (intern_ext (((i.intern s1).2).internAll ss) s2) h1j
  intro heq
  rw [heq, h1j2] at h2
  exact hne (Option.some.inj h2)

theorem staticSymbols_nodup : staticSymbols.Nodup :=
  List.Nodup.of_map strKey (by decide)

theorem foldl_insertDedup (init : List String) : ∀ acc : List String,
    (acc ++ init).Nodup → init.foldl insertDedup acc = acc ++ init := by
  induction init with
  | nil => intro acc _; simp
  | cons a tl ih =>
    intro acc h
    obtain ⟨h1, h2, hd⟩ := List.nodup_append.mp h
    have hna : a ∉ acc := fun hmem => hd hmem (List.mem_cons_self a tl)
    have hstep : insertDedup acc a = acc ++ [a] := by simp [insertDedup, hna]
    have hnd2 : ((acc ++ [a]) ++ tl).Nodup := by
      rw [← List.append_cons]
      exact h
    calc (a :: tl).foldl insertDedup acc = tl.foldl insertDedup (acc ++ [a]) := by
          rw [List.foldl_cons, hstep]
      _ = (acc ++ [a]) ++ tl := ih (acc ++ [a]) hnd2
      _ = acc ++ a :: tl := by rw [List.append_assoc]; rfl

theorem globalInterner_strings : globalInterner.strings = staticSymbols := by
  have h : (([] : List String) ++ staticSymbols).Nodup := by
    simpa using staticSymbols_nodup
  simpa [globalInterner, Interner.prefill] using foldl_insertDedup staticSymbols [] h

theorem globalGet (s : Symbol) : globalInterner.get s = staticSymbols.get? s.idx := by
  unfold Interner.get
  rw [globalInterner_strings]

/-- C1: interning the same string again in one table returns the same handle
(and leaves the table unchanged), and the handles of two distinct strings are
distinct, no matter how many other strings were interned in between. -/
theorem intern_idempotent_and_injective (i : Interner) (s s1 s2 : String)
    (ss : List String) (hne : s1 ≠ s2) :
    (((i.intern s).2).intern s).1 = (i.intern s).1 ∧
    ((((i.intern s1).2).internAll ss).intern s2).1 ≠ (i.intern s1).1 := by
  constructor
  · rw [intern_again]
  · exact intern_distinct i ss s1 s2 hne

/-- Witness for C1 at the source's own test strings "dog" and "cat" on an
empty table. -/
theorem intern_idempotent_and_injective_witness :
    ("dog" : String) ≠ "cat" ∧
    ((((Interner.prefill []).intern "dog").2).intern "dog").1 =
      ((Interner.prefill []).intern "dog").1 ∧
    (((((Interner.prefill []).intern "dog").2).internAll []).intern "cat").1 ≠
      ((Interner.prefill []).intern "dog").1 :=
  ⟨by decide,
   intern_idempotent_and_injective (Interner.prefill []) "dog" "dog" "cat" [] (by decide)⟩

/-- C2 counterexample: `kw::int` takes the byte (not bit) size, so `int(8)`
is the handle of "int64", and in particular does not resolve to "int8". -/
theorem int_eight_resolves_to_int64 :
    kw.int 8 = some ⟨62⟩ ∧ globalInterner.get ⟨62⟩ = some "int64" ∧
    ¬ ∃ s, kw.int 8 = some s ∧ globalInterner.get s = some "int8" := by
  refine ⟨rfl, by rw [globalGet]; decide, ?_⟩
  rintro ⟨s, hs, hg⟩
  have hs62 : s = ⟨62⟩ :=
    (Option.some.inj ((show kw.int 8 = some ⟨62⟩ from rfl).symm.trans hs)).symm
  rw [hs62, globalGet] at hg
  exact absurd hg (by decide)

/-- C2 (amended): `int(n)` is valid exactly for `n` in `[0, 32]` and aborts
outside that range; `int(0)` resolves to "int" and `int(n)` for `n ≥ 1`
resolves to "int" followed by the decimal of the bit size `8 * n`
(so `int(1)` is "int8" and `int(8)` is "int64"). -/
theorem int_family_constructor (n : Nat) (hn : n ≤ 32) :
    (∀ m : Nat, (kw.int m).isSome ↔ m ≤ 32) ∧
    ∃ s, kw.int n = some s ∧
      globalInterner.get s = some (if n = 0 then "int" else "int" ++ Nat.repr (8 * n)) := by
  constructor
  · intro m
    by_cases h : m ≤ 32 <;> simp [kw.int, h]
  · refine ⟨⟨54 + n⟩, ?_, ?_⟩
    · show (if n ≤ 32 then some (⟨kw.Int.idx + n⟩ : Symbol) else none) = some ⟨54 + n⟩
      rw [if_pos hn]
      rfl
    · rw [globalGet]
      have key : ∀ m, m < 33 → staticSymbols.get? (54 + m) =
          some (if m = 0 then "int" else "int" ++ Nat.repr (8 * m)) := by decide
      exact key n (by omega)

/-- Witness for C2's amended theorem at byte size 8. -/
theorem int_family_constructor_witness :
    (8 : Nat) ≤ 32 ∧
    ((∀ m : Nat, (kw.int m).isSome ↔ m ≤ 32) ∧
      ∃ s, kw.int 8 = some s ∧
        globalInterner.get s =
          some (if (8 : Nat) = 0 then "int" else "int" ++ Nat.repr (8 * 8))) :=
  ⟨by decide, int_family_constructor 8 (by decide)⟩

/-- C3: prefilling with a duplicate-free ordered list gives the k-th string
handle k, and any string outside the list interned at any later point gets a
handle at least the list's length. -/
theorem prefill_order_and_fresh_handles (init : List String) (hnd : init.Nodup)
    (k : Nat) (hk : k < init.length) (ss : List String) (s : String) (hs : s ∉ init) :
    ((Interner.prefill init).intern (init.get ⟨k, hk⟩)).1 = ⟨k⟩ ∧
    init.length ≤ ((((Interner.prefill init).internAll ss)).intern s).1.idx := by
  have hpre : (Interner.prefill init).strings = init := by
    have h : (([] : List String) ++ init).Nodup := by simpa using hnd
    simpa [Interner.prefill] using foldl_insertDedup init [] h
  constructor
  · unfold Interner.intern
    rw [hpre, firstIdx_nodup hnd k hk]
  · obtain ⟨t, ht⟩ := internAll_strings (Interner.prefill init) ss
    rw [hpre] at ht
    by_contra hlt
    push_neg at hlt
    have hget := intern_get ((Interner.prefill init).internAll ss) s
    obtain ⟨t2, ht2⟩ := intern_ext ((Interner.prefill init).internAll ss) s
    unfold Interner.get at hget
    rw [ht2, ht, List.append_assoc, List.get?_append hlt] at hget
    exact hs (List.get?_mem hget)

/-- Witness for C3 on the list ["a", "b", "c"] at position 1, with "d"
interned in between and "e" the fresh string. -/
theorem prefill_order_and_fresh_handles_witness :
    (["a", "b", "c"] : List String).Nodup ∧ 1 < (["a", "b", "c"] : List String).length ∧
    ("e" : String) ∉ (["a", "b", "c"] : List String) ∧
    (((Interner.prefill ["a", "b", "c"]).intern
        ((["a", "b", "c"] : List String).get ⟨1, by decide⟩)).1 = ⟨1⟩ ∧
      (["a", "b", "c"] : List String).length ≤
        (((Interner.prefill ["a", "b", "c"]).internAll ["d"]).intern "e").1.idx) :=
  ⟨by decide, by decide, by decide,
   prefill_order_and_fresh_handles ["a", "b", "c"] (by decide) 1 (by decide) ["d"] "e" (by decide)⟩

/-- C4: resolving the handle returned by `intern(s)` against the resulting
table yields exactly `s`. -/
theorem intern_resolve_roundtrip (i : Interner) (s : String) :
    ((i.intern s).2).get ((i.intern s).1) = some s :=
  intern_get i s

/-- C5: interning content not previously present returns the next sequential
handle, strictly greater than every handle the table could have issued
before (every issued handle indexes into the table's string list). -/
theorem intern_fresh_handle_monotone (i : Interner) (s : String)
    (hs : s ∉ i.strings) (p : Nat) (hp : p < i.strings.length) :
    ((i.intern s).1).idx = i.strings.length ∧ p < ((i.intern s).1).idx := by
  have h : firstIdx i.strings s = none := firstIdx_eq_none.mpr hs
  unfold Interner.intern
  rw [h]
  exact ⟨rfl, hp⟩

/-- Witness for C5: interning "cat" into a table holding only "dog". -/
theorem intern_fresh_handle_monotone_witness :
    ("cat" : String) ∉ (Interner.prefill ["dog"]).strings ∧
    0 < (Interner.prefill ["dog"]).strings.length ∧
    (((Interner.prefill ["dog"]).intern "cat").1.idx =
        (Interner.prefill ["dog"]).strings.length ∧
      0 < ((Interner.prefill ["dog"]).intern "cat").1.idx) :=
  ⟨by decide, by decide,
   intern_fresh_handle_monotone (Interner.prefill ["dog"]) "cat" (by decide) 0 (by decide)⟩

/-- C6: `Ident` equality, ordering and hashing depend only on the wrapped
symbol, never on the span: identifiers at different locations are
equal/equally ordered/equally hashed exactly when their symbols are equal;
identifiers interned from the same text are equal and from different text are
not. -/
theorem ident_identity_ignores_location (a b : Symbol) (l1 l2 : Span)
    (i : Interner) (t1 t2 : String) (hne : t1 ≠ t2) :
    (Ident.beq ⟨a, l1⟩ ⟨b, l2⟩ = true ↔ a = b) ∧
    (Ident.cmp ⟨a, l1⟩ ⟨b, l2⟩ = Ordering.eq ↔ a = b) ∧
    (Ident.hashInput ⟨a, l1⟩ = Ident.hashInput ⟨b, l2⟩ ↔ a = b) ∧
    Ident.beq ⟨(i.intern t1).1, l1⟩ ⟨(i.intern t1).1, l2⟩ = true ∧
    Ident.beq ⟨(i.intern t1).1, l1⟩ ⟨((i.intern t1).2.intern t2).1, l2⟩ = false := by
  obtain ⟨na⟩ := a
  obtain ⟨nb⟩ := b
  refine ⟨?_, ?_, ?_, ?_, ?_⟩
  · simp [Ident.beq]
  · simp [Ident.cmp, Nat.compare_eq_eq, Symbol.mk.injEq]
  · simp [Ident.hashInput, Symbol.mk.injEq]
  · simp [Ident.beq]
  · have hd : ((i.intern t1).2.intern t2).1 ≠ (i.intern t1).1 := by
      have := intern_distinct i [] t1 t2 hne
      simpa [Interner.internAll] using this
    simp [Ident.beq]
    exact fun hc => hd hc.symm

/-- Witness for C6 with symbols 0 and 1, two different spans, and the texts
"foo" and "bar" on an empty table. -/
theorem ident_identity_ignores_location_witness :
    ("foo" : String) ≠ "bar" ∧
    ((Ident.beq ⟨⟨0⟩, ⟨0, 1⟩⟩ ⟨⟨1⟩, ⟨2, 3⟩⟩ = true ↔ (⟨0⟩ : Symbol) = ⟨1⟩) ∧
      (Ident.cmp ⟨⟨0⟩, ⟨0, 1⟩⟩ ⟨⟨1⟩, ⟨2, 3⟩⟩ = Ordering.eq ↔ (⟨0⟩ : Symbol) = ⟨1⟩) ∧
      (Ident.hashInput ⟨⟨0⟩, ⟨0, 1⟩⟩ = Ident.hashInput ⟨⟨1⟩, ⟨2, 3⟩⟩ ↔ (⟨0⟩ : Symbol) = ⟨1⟩) ∧
      Ident.beq ⟨((Interner.prefill []).intern "foo").1, ⟨0, 1⟩⟩
        ⟨((Interner.prefill []).intern "foo").1, ⟨2, 3⟩⟩ = true ∧
      Ident.beq ⟨((Interner.prefill []).intern "foo").1, ⟨0, 1⟩⟩
        ⟨(((Interner.prefill []).intern "foo").2.intern "bar").1, ⟨2, 3⟩⟩ = false) :=
  ⟨by decide,
   ident_identity_ignores_location ⟨0⟩ ⟨1⟩ ⟨0, 1⟩ ⟨2, 3⟩ (Interner.prefill []) "foo" "bar"
     (by decide)⟩

/-- C7 counterexample: the yul EVM builtin set is not a single contiguous
handle range — "return" (handle 41) is a builtin while e.g. handle 100
("uint104"), which lies between 41 and "xor" (271), is not. -/
theorem yul_builtin_not_single_range :
    ¬ ∃ lo hi : Nat, lo ≤ hi ∧
      ∀ s : Symbol, (s.is_yul_builtin = true ↔ lo ≤ s.idx ∧ s.idx ≤ hi) := by
  rintro ⟨lo, hi, -, h⟩
  have h1 : lo ≤ 41 ∧ 41 ≤ hi := (h ⟨41⟩).mp (by decide)
  have h2 : lo ≤ 271 ∧ 271 ≤ hi := (h ⟨271⟩).mp (by decide)
  have h3 : Symbol.is_yul_builtin ⟨100⟩ = true :=
    (h ⟨100⟩).mpr ⟨show lo ≤ 100 by omega, show (100 : Nat) ≤ hi by omega⟩
  exact absurd h3 (by decide)

/-- C7 (amended): the yul EVM builtin set is a contiguous handle range from
"add" to "xor" together with exactly the four earlier-declared outliers
"address", "byte", "return" and "revert". -/
theorem yul_builtin_range_and_outliers :
    ∃ lo hi : Nat, lo ≤ hi ∧
      globalInterner.get ⟨lo⟩ = some "add" ∧ globalInterner.get ⟨hi⟩ = some "xor" ∧
      globalInterner.get kw.Address = some "address" ∧
      globalInterner.get kw.Byte = some "byte" ∧
      globalInterner.get kw.Return = some "return" ∧
      globalInterner.get kw.Revert = some "revert" ∧
      ∀ s : Symbol, (s.is_yul_builtin = true ↔
        ((lo ≤ s.idx ∧ s.idx ≤ hi) ∨
          s = kw.Address ∨ s = kw.Byte ∨ s = kw.Return ∨ s = kw.Revert)) := by
  refine ⟨202, 271, by omega, by rw [globalGet]; decide, by rw [globalGet]; decide,
    by rw [globalGet]; decide, by rw [globalGet]; decide, by rw [globalGet]; decide,
    by rw [globalGet]; decide, ?_⟩
  rintro ⟨n⟩
  simp only [Symbol.is_yul_builtin, kw.Add, kw.Xor, kw.Address, kw.Byte, kw.Return, kw.Revert,
    Bool.or_eq_true, Bool.and_eq_true, decide_eq_true_eq, Symbol.mk.injEq]
  omega

/-- C8: `fixed_bytes(n)` aborts exactly for `n = 0` or `n > 32`, and for `n`
in `[1, 32]` returns the handle resolving to "bytes" followed by the decimal
of `n`. -/
theorem fixed_bytes_family_constructor (n : Nat) (h1 : 1 ≤ n) (h2 : n ≤ 32) :
    (∀ m : Nat, kw.fixed_bytes m = none ↔ (m = 0 ∨ 32 < m)) ∧
    ∃ s, kw.fixed_bytes n = some s ∧
      globalInterner.get s = some ("bytes" ++ Nat.repr n) := by
  constructor
  · intro m
    by_cases h : 0 < m ∧ m ≤ 32 <;> simp [kw.fixed_bytes, h] <;> omega
  · refine ⟨⟨120 + n⟩, ?_, ?_⟩
    · show (if 0 < n ∧ n ≤ 32 then some (⟨kw.Bytes.idx + n⟩ : Symbol) else none) =
        some ⟨120 + n⟩
      rw [if_pos (⟨by omega, h2⟩ : 0 < n ∧ n ≤ 32)]
      rfl
    · rw [globalGet]
      have key : ∀ m, m < 33 → 1 ≤ m →
          staticSymbols.get? (120 + m) = some ("bytes" ++ Nat.repr m) := by decide
      exact key n (by omega) h1

/-- Witness for C8 at byte size 32. -/
theorem fixed_bytes_family_constructor_witness :
    (1 : Nat) ≤ 32 ∧ (32 : Nat) ≤ 32 ∧
    ((∀ m : Nat, kw.fixed_bytes m = none ↔ (m = 0 ∨ 32 < m)) ∧
      ∃ s, kw.fixed_bytes 32 = some s ∧
        globalInterner.get s = some ("bytes" ++ Nat.repr 32)) :=
  ⟨by decide, by decide, fixed_bytes_family_constructor 32 (by decide) (by decide)⟩

/-- C9: every elementary-type symbol (handle range "int".."ufixed") is also a
used keyword (its handle lies strictly below the handle of "after"). -/
theorem elementary_type_is_used_keyword (s : Symbol)
    (h : s.is_elementary_type = true) : s.is_used_keyword = true := by
  obtain ⟨n⟩ := s
  simp only [Symbol.is_elementary_type, kw.Int, kw.UFixed, Bool.and_eq_true,
    decide_eq_true_eq] at h
  simp only [Symbol.is_used_keyword, kw.After, decide_eq_true_eq]
  omega

/-- Witness for C9 at the "int" symbol (handle 54). -/
theorem elementary_type_is_used_keyword_witness :
    Symbol.is_elementary_type ⟨54⟩ = true ∧ Symbol.is_used_keyword ⟨54⟩ = true :=
  ⟨by decide, elementary_type_is_used_keyword ⟨54⟩ (by decide)⟩

/-- C10: `is_bool_lit` holds exactly for the prefilled symbols of "false" and
"true"; `kw::boolean` returns the "true" symbol for `true` and the "false"
symbol for `false`, so its result always satisfies `is_bool_lit`. -/
theorem bool_lit_characterization :
    (∀ s : Symbol, s.is_bool_lit = true ↔ (s = kw.False ∨ s = kw.True)) ∧
    globalInterner.get kw.False = some "false" ∧
    globalInterner.get kw.True = some "true" ∧
    globalInterner.get (kw.boolean true) = some "true" ∧
    globalInterner.get (kw.boolean false) = some "false" ∧
    (∀ b : Bool, (kw.boolean b).is_bool_lit = true) := by
  refine ⟨?_, by rw [globalGet]; decide, by rw [globalGet]; decide,
    by rw [globalGet]; decide, by rw [globalGet]; decide, ?_⟩
  · intro s
    simp [Symbol.is_bool_lit]
  · intro b
    cases b <;> decide

end Solar
